import Mathlib

/-!
Verification of the streaming aggregation pipeline in
`Scripts/mapreduce/mapper.py` and `Scripts/mapreduce/reducer.py`.

The two Python scripts are shallowly embedded here:

* Python `float` values are modelled as exact rationals (`ℚ`); the claims
  under scrutiny allow floating-point tolerance, and over `ℚ` the arithmetic
  identities hold exactly.  Non-finite floats (`inf`, `nan`) and digit-group
  underscores accepted by Python's `float()` are outside the fragment the
  pipeline exchanges and are not modelled.
* Text lines are `String`s; the character-level operations used by the
  scripts (`str.strip`, `str.split('\t')`, `float(...)` parsing, `f"{x:.2f}"`
  formatting) are defined below on `List Char`, following CPython's
  documented behaviour on the ASCII fragment.
* A process run is observed through its two output channels
  (`stdout`, `stderr`), collected in a `RunOut` value.
* `datetime.datetime(2025, 5, 27).timestamp()` is timezone-dependent in
  Python; it is modelled at UTC, matching the reference instant named by the
  repository's documentation (2025-05-27T00:00:00Z).
-/

namespace Mimic

/-- Observable behaviour of one script run: the lines printed to the primary
output channel (stdout) and to the diagnostic channel (stderr). -/
structure RunOut where
  stdout : List String
  stderr : List String
deriving DecidableEq, Repr

/-! ### Characters and digits -/

/-- The decimal digit characters, in order; `digitChar d` is the character
for the digit `d < 10`. -/
def digitChar (d : ℕ) : Char :=
  ['0', '1', '2', '3', '4', '5', '6', '7', '8', '9'].getD d '0'

/-- Numeric value of an ASCII digit character. -/
def digitVal (c : Char) : ℕ := c.toNat - 48

/-- Value of a big-endian list of ASCII digit characters. -/
def digitsVal (cs : List Char) : ℕ :=
  cs.foldl (fun a c => a * 10 + digitVal c) 0

/-- The characters stripped by Python's `str.strip()` and by `float()` on
the ASCII fragment: space, tab, newline, carriage return, vertical tab,
form feed. -/
def pyIsSpace (c : Char) : Bool :=
  c == ' ' || c == '\t' || c == '\n' || c == '\r' || c == '\x0b' || c == '\x0c'

/-- Model of Python `str.strip()`: drop whitespace from both ends. -/
def stripChars (cs : List Char) : List Char :=
  ((cs.dropWhile pyIsSpace).reverse.dropWhile pyIsSpace).reverse

/-- Model of Python `str.split('\t')`: split at every tab, keeping empty
chunks (`"".split('\t') == ['']`). -/
def splitTabChars : List Char → List (List Char)
  | [] => [[]]
  | c :: cs =>
    if c = '\t' then [] :: splitTabChars cs
    else
      match splitTabChars cs with
      | [] => [[c]]
      | g :: gs => (c :: g) :: gs

/-- `str.split('\t')` on a `String`. -/
def pySplitTab (s : String) : List String :=
  (splitTabChars s.toList).map String.mk

/-! ### Decimal rendering: Python's `f"{x:.2f}"` -/

/-- Little-endian decimal digits of `n` (empty for `0`); the first argument
is fuel, always instantiated with `n` itself so that the recursion is
structural and kernel-reducible. -/
def natDigitsRevAux : ℕ → ℕ → List ℕ
  | 0, _ => []
  | fuel + 1, n => if n = 0 then [] else n % 10 :: natDigitsRevAux fuel (n / 10)

/-- Little-endian decimal digits of `n` (empty for `0`). -/
def natDigitsRev (n : ℕ) : List ℕ := natDigitsRevAux n n

/-- Big-endian decimal rendering of a natural number, as Python prints it. -/
def natToChars (n : ℕ) : List Char :=
  if n = 0 then ['0'] else ((natDigitsRev n).reverse).map digitChar

/-- Two-digit rendering of `b < 100`, zero-padded on the left, as in the
fractional part of `f"{x:.2f}"`. -/
def pad2Chars (b : ℕ) : List Char :=
  if b < 10 then '0' :: natToChars b else natToChars b

/-- Character-level model of Python's `f"{x:.2f}"`: round `x` at two
decimals to the integer `n` of hundredths, then print sign, integer part,
point, and the zero-padded two-digit fraction. -/
def format2Chars (q : ℚ) : List Char :=
  let n : ℤ := round (q * 100)
  let m : ℕ := n.natAbs
  (if n < 0 then ['-'] else []) ++ natToChars (m / 100) ++ '.' :: pad2Chars (m % 100)

/-- Python's `f"{x:.2f}"` as a `String`. -/
def format2 (q : ℚ) : String := String.mk (format2Chars q)

/-- The rational actually denoted by `f"{x:.2f}"`: `x` rounded to a multiple
of `1/100`. -/
def round2 (q : ℚ) : ℚ := (round (q * 100) : ℤ) / 100

/-! ### Python `float()` on decimal literals -/

/-- Exponent part of a float literal: an optional sign followed by a
non-empty digit string. -/
def parseExp (cs : List Char) : Option ℤ :=
  let ds := if cs.head? = some '+' ∨ cs.head? = some '-' then cs.tail else cs
  if ds ≠ [] ∧ ds.all Char.isDigit then
    some (if cs.head? = some '-' then -(digitsVal ds : ℤ) else (digitsVal ds : ℤ))
  else none

/-- Assemble a float literal from its integer digits `ip`, fractional
digits `fp`, and remaining characters (at most an exponent part).  At least
one digit must be present before the exponent. -/
def parseRest (ip fp rest : List Char) : Option ℚ :=
  if ip = [] ∧ fp = [] then none
  else
    let base : ℚ := (digitsVal ip : ℚ) + (digitsVal fp : ℚ) / (10 : ℚ) ^ fp.length
    if rest = [] then some base
    else if rest.head? = some 'e' ∨ rest.head? = some 'E' then
      (parseExp rest.tail).map (fun k => base * (10 : ℚ) ^ k)
    else none

/-- Unsigned float literal: digits, an optional point with more digits, and
an optional exponent. -/
def parseUnsigned (cs : List Char) : Option ℚ :=
  let rest1 := cs.dropWhile Char.isDigit
  if rest1.head? = some '.' then
    parseRest (cs.takeWhile Char.isDigit) (rest1.tail.takeWhile Char.isDigit)
      (rest1.tail.dropWhile Char.isDigit)
  else parseRest (cs.takeWhile Char.isDigit) [] rest1

/-- Model of Python's `float(s)` on finite decimal literals: strip
whitespace, take an optional sign, then an unsigned literal.  `none` models
the `ValueError` raised on anything else. -/
def parseFloat (s : String) : Option ℚ :=
  let cs := stripChars s.toList
  if cs.head? = some '-' then (parseUnsigned cs.tail).map (fun x => -x)
  else if cs.head? = some '+' then parseUnsigned cs.tail
  else parseUnsigned cs

/-! ### The Aggregator: `reducer.py` -/

/-- One line of the intermediate stream, as consumed by
`key, age = line.strip().split('\t')` followed by `float(age)`:
the line must split into exactly two tab-separated fields and the second
must parse as a float.  `none` models the `ValueError` either statement
raises on a structurally malformed entry. -/
def parseEntry (line : String) : Option (String × ℚ) :=
  match splitTabChars (stripChars line.toList) with
  | [k, a] => (parseFloat (String.mk a)).map (fun v => (String.mk k, v))
  | _ => none

/-- The accumulation loop of `reduce_ages`: starting from
`(total_age, count)`, fold the update rule `total_age += float(age)`;
`count += 1` over the lines.  `none` models the exception that aborts the
loop at the first malformed entry. -/
def runAccum : List String → ℚ → ℕ → Option (ℚ × ℕ)
  | [], total, count => some (total, count)
  | l :: ls, total, count =>
    match parseEntry l with
    | some p => runAccum ls (total + p.2) (count + 1)
    | none => none

/-- The diagnostic line printed by `reduce_ages`' exception handler
(`f"Error in reducer: {e}"`; the interpolated exception text is abstracted
to a fixed message). -/
def reducerErrorLine : String := "Error in reducer: malformed intermediate entry"

/-- `reduce_ages` of `reducer.py`: accumulate `(total_age, count)` over
stdin's lines; on success print the mean to stdout if `count > 0` and
`"No valid ages found"` to stderr otherwise; on an exception print the
error to stderr (nothing has been printed to stdout at that point). -/
def reduce_ages (lines : List String) : RunOut :=
  match runAccum lines 0 0 with
  | some (total, count) =>
    if count > 0 then
      ⟨["Average Patient Age: " ++ format2 (total / (count : ℚ)) ++ " years"], []⟩
    else
      ⟨[], ["No valid ages found"]⟩
  | none => ⟨[], [reducerErrorLine]⟩

/-! ### The Extractor: `mapper.py` -/

/-- A field value of a decoded Avro record: a numeric value (Python
`int`/`float`, exact rational here) or a non-numeric one (e.g. an Avro
string), for which `REFERENCE_DATE - dob` raises `TypeError`. -/
inductive AvroVal where
  | num (q : ℚ)
  | other (s : String)
deriving DecidableEq, Repr

/-- A decoded Avro record, seen through the only access the mapper makes:
`record.get('dob')`, which is `None` when the field is absent. -/
structure Record where
  dob : Option AvroVal
deriving DecidableEq, Repr

/-- `datetime.datetime(2025, 5, 27).timestamp() * 1000`, modelled at UTC:
the epoch milliseconds of 2025-05-27T00:00:00Z. -/
def REFERENCE_DATE : ℚ := 1748304000000

/-- The age computation of the mapper:
`(REFERENCE_DATE - dob) / (1000 * 60 * 60 * 24 * 365.25)`. -/
def mapperAge (dob : ℚ) : ℚ :=
  (REFERENCE_DATE - dob) / (1000 * 60 * 60 * 24 * 365.25)

/-- The diagnostic line printed by the mapper's exception handler
(`f"Error in mapper: {e}"`; the interpolated exception text is abstracted
to a fixed message). -/
def mapperErrorLine : String := "Error in mapper: unsupported operand type"

/-- The loop body of `read_avro_from_stdin`, with the lines printed so far:
skip a record with no `dob`, print `f"1\t{age:.2f}"` for a numeric `dob`,
and for a non-numeric `dob` raise `TypeError` in the subtraction, which the
surrounding handler turns into a stderr line, ending the pass. -/
def readAvroGo : List Record → List String → RunOut
  | [], out => ⟨out, []⟩
  | r :: rs, out =>
    match r.dob with
    | none => readAvroGo rs out
    | some (.num d) => readAvroGo rs (out ++ ["1\t" ++ format2 (mapperAge d)])
    | some (.other _) => ⟨out, [mapperErrorLine]⟩

/-- `read_avro_from_stdin` of `mapper.py`, applied to the decoded records. -/
def read_avro_from_stdin (records : List Record) : RunOut :=
  readAvroGo records []

/-! ### Observation helpers used to state the claims -/

/-- The line the mapper emits for one record, if any: exactly the records
with a numeric `dob` produce a line. -/
def emitOf (r : Record) : Option String :=
  match r.dob with
  | some (.num d) => some ("1\t" ++ format2 (mapperAge d))
  | _ => none

/-- A record the mapper handles without raising: `dob` absent or numeric. -/
def numericOrMissing (r : Record) : Bool :=
  match r.dob with
  | some (.other _) => false
  | _ => true

/-- The numeric `dob` values of a record stream, in order. -/
def dobValues (rs : List Record) : List ℚ :=
  rs.filterMap fun r =>
    match r.dob with
    | some (.num d) => some d
    | _ => none

/-- The value field of a well-formed intermediate line (junk default `0`
for malformed ones; only used under well-formedness hypotheses). -/
def entryVal (l : String) : ℚ := ((parseEntry l).map Prod.snd).getD 0

/-- Sum of the value fields of an intermediate stream. -/
def valSum (ls : List String) : ℚ := (ls.map entryVal).sum

/-- Modelled from the spec: the merge step for partial aggregates is absent
from the sources (the spec's concurrency section defines it as
`merge((s1,c1),(s2,c2)) = (s1+s2, c1+c2)`). -/
def merge (p q : ℚ × ℕ) : ℚ × ℕ := (p.1 + q.1, p.2 + q.2)

/-! ### Digit rendering lemmas -/

theorem digitVal_digitChar {d : ℕ} (h : d < 10) : digitVal (digitChar d) = d := by
  interval_cases d <;> rfl

theorem isDigit_digitChar {d : ℕ} (h : d < 10) : (digitChar d).isDigit = true := by
  interval_cases d <;> rfl

theorem digitsVal_concat (xs : List Char) (c : Char) :
    digitsVal (xs ++ [c]) = digitsVal xs * 10 + digitVal c := by
  simp [digitsVal, List.foldl_append]

theorem natDigitsRevAux_zero (fuel : ℕ) : natDigitsRevAux fuel 0 = [] := by
  cases fuel <;> rfl

theorem natDigitsRevAux_lt (fuel n : ℕ) : ∀ d ∈ natDigitsRevAux fuel n, d < 10 := by
  induction fuel generalizing n with
  | zero => simp [natDigitsRevAux]
  | succ f ih =>
    intro d hd
    by_cases h0 : n = 0
    · simp [natDigitsRevAux, h0] at hd
    · simp only [natDigitsRevAux, h0, if_false, List.mem_cons] at hd
      rcases hd with rfl | hd
      · exact Nat.mod_lt _ (by norm_num)
      · exact ih _ _ hd

theorem digitsVal_natDigitsRevAux (fuel n : ℕ) (h : n ≤ fuel) :
    digitsVal (((natDigitsRevAux fuel n).reverse).map digitChar) = n := by
  induction fuel generalizing n with
  | zero =>
    have : n = 0 := Nat.le_zero.mp h
    simp [this, natDigitsRevAux, digitsVal]
  | succ f ih =>
    by_cases h0 : n = 0
    · simp [h0, natDigitsRevAux, digitsVal]
    · have hd : n / 10 ≤ f := by
        have := Nat.div_lt_self (Nat.pos_of_ne_zero h0) (by norm_num : 1 < 10)
        omega
      simp only [natDigitsRevAux, h0, if_false, List.reverse_cons, List.map_append,
        List.map_cons, List.map_nil, digitsVal_concat]
      rw [ih _ hd, digitVal_digitChar (Nat.mod_lt _ (by norm_num))]
      omega

theorem digitsVal_natToChars (n : ℕ) : digitsVal (natToChars n) = n := by
  by_cases h0 : n = 0
  · simp [h0, natToChars]; rfl
  · simp only [natToChars, h0, if_false, natDigitsRev]
    exact digitsVal_natDigitsRevAux n n le_rfl

theorem natToChars_ne_nil (n : ℕ) : natToChars n ≠ [] := by
  by_cases h0 : n = 0
  · simp [h0, natToChars]
  · obtain ⟨m, rfl⟩ := Nat.exists_eq_succ_of_ne_zero h0
    simp [natToChars, natDigitsRev, natDigitsRevAux]

theorem natToChars_digits (n : ℕ) : ∀ c ∈ natToChars n, c.isDigit = true := by
  intro c hc
  by_cases h0 : n = 0
  · simp [h0, natToChars] at hc
    subst hc; rfl
  · simp only [natToChars, h0, if_false, natDigitsRev, List.mem_map,
      List.mem_reverse] at hc
    obtain ⟨d, hd, rfl⟩ := hc
    exact isDigit_digitChar (natDigitsRevAux_lt n n d hd)

theorem natToChars_one_digit {b : ℕ} (h1 : 0 < b) (h2 : b < 10) :
    natToChars b = [digitChar b] := by
  obtain ⟨m, rfl⟩ := Nat.exists_eq_succ_of_ne_zero (Nat.pos_iff_ne_zero.mp h1)
  have hdiv : (m + 1) / 10 = 0 := Nat.div_eq_of_lt h2
  have hmod : (m + 1) % 10 = m + 1 := Nat.mod_eq_of_lt h2
  simp [natToChars, natDigitsRev, natDigitsRevAux, hdiv, hmod, natDigitsRevAux_zero]

theorem natToChars_two_digits {b : ℕ} (h1 : 10 ≤ b) (h2 : b < 100) :
    natToChars b = [digitChar (b / 10), digitChar (b % 10)] := by
  obtain ⟨m, rfl⟩ := Nat.exists_eq_succ_of_ne_zero (by omega : b ≠ 0)
  obtain ⟨f, hf⟩ : ∃ f, m = f + 1 := ⟨m - 1, by omega⟩
  subst hf
  have hne : f + 1 + 1 ≠ 0 := by omega
  have hd1 : (f + 2) / 10 ≠ 0 := by omega
  have hdlt : (f + 2) / 10 < 10 := by omega
  have hmod : (f + 2) / 10 % 10 = (f + 2) / 10 := Nat.mod_eq_of_lt hdlt
  have hdd : (f + 2) / 10 / 10 = 0 := Nat.div_eq_of_lt hdlt
  have hfuel : natDigitsRevAux f ((f + 2) / 10 / 10) = [] := by
    rw [hdd]; exact natDigitsRevAux_zero f
  show natToChars (f + 2) = _
  simp only [natToChars, natDigitsRev, if_neg (by omega : ¬ (f + 2 = 0))]
  show (((natDigitsRevAux (f + 1 + 1)) (f + 2)).reverse.map digitChar) = _
  rw [show natDigitsRevAux (f + 1 + 1) (f + 2)
      = (f + 2) % 10 :: natDigitsRevAux (f + 1) ((f + 2) / 10) from by
    simp [natDigitsRevAux]]
  rw [show natDigitsRevAux (f + 1) ((f + 2) / 10)
      = (f + 2) / 10 % 10 :: natDigitsRevAux f ((f + 2) / 10 / 10) from by
    simp [natDigitsRevAux, hd1]]
  rw [hfuel, hmod]
  rfl

theorem pad2Chars_eq {b : ℕ} (h : b < 100) :
    pad2Chars b = [digitChar (b / 10), digitChar (b % 10)] := by
  by_cases h10 : b < 10
  · have hdiv : b / 10 = 0 := Nat.div_eq_of_lt h10
    have hmod : b % 10 = b := Nat.mod_eq_of_lt h10
    by_cases h0 : b = 0
    · simp [pad2Chars, h0, natToChars]; rfl
    · simp only [pad2Chars, if_pos h10, natToChars_one_digit (Nat.pos_of_ne_zero h0) h10,
        hdiv, hmod]
      rfl
  · simp only [pad2Chars, if_neg h10]
    exact natToChars_two_digits (by omega) h

theorem digitsVal_pad2Chars {b : ℕ} (h : b < 100) : digitsVal (pad2Chars b) = b := by
  rw [pad2Chars_eq h]
  have h1 : b / 10 < 10 := by omega
  have h2 : b % 10 < 10 := Nat.mod_lt _ (by norm_num)
  show digitsVal ([digitChar (b / 10)] ++ [digitChar (b % 10)]) = b
  rw [digitsVal_concat, digitVal_digitChar h2]
  have : digitsVal [digitChar (b / 10)] = b / 10 := by
    show digitsVal ([] ++ [digitChar (b / 10)]) = b / 10
    rw [digitsVal_concat, digitVal_digitChar h1]
    simp [digitsVal]
  rw [this]
  omega

theorem pad2Chars_digits {b : ℕ} (h : b < 100) :
    ∀ c ∈ pad2Chars b, c.isDigit = true := by
  rw [pad2Chars_eq h]
  intro c hc
  simp only [List.mem_cons, List.mem_singleton] at hc
  rcases hc with rfl | rfl | hc
  · exact isDigit_digitChar (by omega)
  · exact isDigit_digitChar (Nat.mod_lt _ (by norm_num))
  · simp at hc

/-! ### Character classification lemmas -/

theorem pyIsSpace_eq_false_of_isDigit {c : Char} (h : c.isDigit = true) :
    pyIsSpace c = false := by
  cases hb : pyIsSpace c with
  | false => rfl
  | true =>
    exfalso
    simp only [pyIsSpace, Bool.or_eq_true, beq_iff_eq] at hb
    rcases hb with ((((rfl | rfl) | rfl) | rfl) | rfl) | rfl <;>
      exact absurd h (by decide)

theorem ne_tab_of_isDigit {c : Char} (h : c.isDigit = true) : c ≠ '\t' := by
  intro e; subst e; exact absurd h (by decide)

theorem ne_minus_of_isDigit {c : Char} (h : c.isDigit = true) : c ≠ '-' := by
  intro e; subst e; exact absurd h (by decide)

theorem ne_plus_of_isDigit {c : Char} (h : c.isDigit = true) : c ≠ '+' := by
  intro e; subst e; exact absurd h (by decide)

/-! ### Strip and split lemmas -/

theorem dropWhile_eq_self_of_all_neg {p : Char → Bool} {cs : List Char}
    (h : ∀ c ∈ cs, p c = false) : cs.dropWhile p = cs := by
  cases cs with
  | nil => rfl
  | cons a as => exact List.dropWhile_cons_of_neg (by simp [h a (by simp)])

theorem takeWhile_eq_self_of_all_pos {p : Char → Bool} {cs : List Char}
    (h : ∀ c ∈ cs, p c = true) : cs.takeWhile p = cs := by
  induction cs with
  | nil => rfl
  | cons a as ih =>
    rw [List.takeWhile_cons_of_pos (by simp [h a (by simp)])]
    rw [ih fun c hc => h c (by simp [hc])]

theorem dropWhile_eq_nil_of_all_pos {p : Char → Bool} {cs : List Char}
    (h : ∀ c ∈ cs, p c = true) : cs.dropWhile p = [] := by
  induction cs with
  | nil => rfl
  | cons a as ih =>
    rw [List.dropWhile_cons_of_pos (by simp [h a (by simp)])]
    exact ih fun c hc => h c (by simp [hc])

theorem takeWhile_append_stop {p : Char → Bool} {y : Char} (ds ys : List Char)
    (h : ∀ c ∈ ds, p c = true) (hy : p y = false) :
    (ds ++ y :: ys).takeWhile p = ds := by
  induction ds with
  | nil => simp [List.takeWhile_cons, hy]
  | cons a as ih =>
    rw [List.cons_append, List.takeWhile_cons_of_pos (by simp [h a (by simp)])]
    rw [ih fun c hc => h c (by simp [hc])]

theorem dropWhile_append_stop {p : Char → Bool} {y : Char} (ds ys : List Char)
    (h : ∀ c ∈ ds, p c = true) (hy : p y = false) :
    (ds ++ y :: ys).dropWhile p = y :: ys := by
  induction ds with
  | nil => simp [List.dropWhile_cons, hy]
  | cons a as ih =>
    rw [List.cons_append, List.dropWhile_cons_of_pos (by simp [h a (by simp)])]
    exact ih fun c hc => h c (by simp [hc])

theorem stripChars_of_no_space {cs : List Char}
    (h : ∀ c ∈ cs, pyIsSpace c = false) : stripChars cs = cs := by
  unfold stripChars
  rw [dropWhile_eq_self_of_all_neg h,
    dropWhile_eq_self_of_all_neg fun c hc => h c (List.mem_reverse.mp hc),
    List.reverse_reverse]

theorem stripChars_keyline (fmt : List Char) (hne : fmt ≠ [])
    (hns : ∀ c ∈ fmt, pyIsSpace c = false) :
    stripChars ('1' :: '\t' :: fmt) = '1' :: '\t' :: fmt := by
  unfold stripChars
  rw [List.dropWhile_cons_of_neg (by decide)]
  have hrev : ('1' :: '\t' :: fmt).reverse = fmt.reverse ++ ['\t', '1'] := by simp
  have hrne : fmt.reverse ≠ [] := by simpa using hne
  obtain ⟨b, bs, hbs⟩ := List.exists_cons_of_ne_nil hrne
  have hbmem : b ∈ fmt := by
    have : b ∈ fmt.reverse := by rw [hbs]; simp
    simpa using this
  rw [hrev, hbs, List.cons_append,
    List.dropWhile_cons_of_neg (by simp [hns b hbmem]),
    ← List.cons_append, ← hbs, ← hrev, List.reverse_reverse]

theorem splitTabChars_cons (c : Char) (cs : List Char) :
    splitTabChars (c :: cs)
      = if c = '\t' then [] :: splitTabChars cs
        else
          match splitTabChars cs with
          | [] => [[c]]
          | g :: gs => (c :: g) :: gs := rfl

theorem splitTabChars_no_tab {cs : List Char} (h : ∀ c ∈ cs, c ≠ '\t') :
    splitTabChars cs = [cs] := by
  induction cs with
  | nil => rfl
  | cons c cs ih =>
    have hc : c ≠ '\t' := h c (by simp)
    rw [splitTabChars_cons, if_neg hc, ih fun x hx => h x (by simp [hx])]

theorem splitTabChars_keyline (fmt : List Char) (h : ∀ c ∈ fmt, c ≠ '\t') :
    splitTabChars ('1' :: '\t' :: fmt) = [['1'], fmt] := by
  rw [splitTabChars_cons, if_neg (by decide), splitTabChars_cons, if_pos rfl,
    splitTabChars_no_tab h]

/-! ### Parsing a rendered number back: `float(f"{x:.2f}") ` -/

theorem parseUnsigned_digits {ds : List Char} (hne : ds ≠ [])
    (h : ∀ c ∈ ds, c.isDigit = true) :
    parseUnsigned ds = some ((digitsVal ds : ℚ)) := by
  have h1 : ds.dropWhile Char.isDigit = [] := dropWhile_eq_nil_of_all_pos h
  have h2 : ds.takeWhile Char.isDigit = ds := takeWhile_eq_self_of_all_pos h
  simp only [parseUnsigned, h1, h2, List.head?_nil]
  rw [if_neg (by simp)]
  simp only [parseRest]
  rw [if_neg (by simp [hne])]
  have h3 : digitsVal ([] : List Char) = (0 : ℕ) := rfl
  rw [h3]
  norm_num

theorem parseUnsigned_format (a b : ℕ) (hb : b < 100) :
    parseUnsigned (natToChars a ++ '.' :: pad2Chars b) = some ((a : ℚ) + (b : ℚ) / 100) := by
  have hd := natToChars_digits a
  have hpd := pad2Chars_digits hb
  have hdot : Char.isDigit '.' = false := rfl
  have h1 : (natToChars a ++ '.' :: pad2Chars b).dropWhile Char.isDigit
      = '.' :: pad2Chars b := dropWhile_append_stop _ _ hd hdot
  have h2 : (natToChars a ++ '.' :: pad2Chars b).takeWhile Char.isDigit
      = natToChars a := takeWhile_append_stop _ _ hd hdot
  simp only [parseUnsigned, h1, h2, List.head?_cons, List.tail_cons]
  rw [if_true]
  rw [takeWhile_eq_self_of_all_pos hpd, dropWhile_eq_nil_of_all_pos hpd]
  simp only [parseRest]
  rw [if_neg (by simp [natToChars_ne_nil a])]
  rw [digitsVal_natToChars, digitsVal_pad2Chars hb]
  have hlen : (pad2Chars b).length = 2 := by rw [pad2Chars_eq hb]; rfl
  rw [hlen]
  norm_num

theorem format2Chars_mem {q : ℚ} {x : Char} (hx : x ∈ format2Chars q) :
    x = '-' ∨ x = '.' ∨ x.isDigit = true := by
  have hb : (round (q * 100)).natAbs % 100 < 100 := Nat.mod_lt _ (by norm_num)
  simp only [format2Chars, List.mem_append, List.mem_cons] at hx
  rcases hx with (hx | hx) | rfl | hx
  · left
    by_cases hneg : round (q * 100) < 0
    · simp [if_pos hneg] at hx; exact hx
    · simp [if_neg hneg] at hx
  · right; right; exact natToChars_digits _ x hx
  · right; left; rfl
  · right; right; exact pad2Chars_digits hb x hx

theorem format2Chars_no_space (q : ℚ) : ∀ c ∈ format2Chars q, pyIsSpace c = false := by
  intro c hc
  rcases format2Chars_mem hc with rfl | rfl | h
  · rfl
  · rfl
  · exact pyIsSpace_eq_false_of_isDigit h

theorem format2Chars_no_tab (q : ℚ) : ∀ c ∈ format2Chars q, c ≠ '\t' := by
  intro c hc
  rcases format2Chars_mem hc with rfl | rfl | h
  · decide
  · decide
  · exact ne_tab_of_isDigit h

theorem format2Chars_ne_nil (q : ℚ) : format2Chars q ≠ [] := by
  simp [format2Chars]

theorem natAbs_div_add_mod_cast (m : ℕ) :
    ((m / 100 : ℕ) : ℚ) + ((m % 100 : ℕ) : ℚ) / 100 = (m : ℚ) / 100 := by
  have h := Nat.div_add_mod m 100
  have hq : ((100 * (m / 100) + m % 100 : ℕ) : ℚ) = (m : ℚ) := by rw [h]
  push_cast at hq
  field_simp
  linarith

theorem parseFloat_format2 (q : ℚ) : parseFloat (format2 q) = some (round2 q) := by
  have hstrip : stripChars (format2 q).toList = format2Chars q :=
    stripChars_of_no_space (format2Chars_no_space q)
  have hb : (round (q * 100)).natAbs % 100 < 100 := Nat.mod_lt _ (by norm_num)
  by_cases hneg : round (q * 100) < 0
  · have hshape : format2Chars q
        = '-' :: (natToChars ((round (q * 100)).natAbs / 100)
          ++ '.' :: pad2Chars ((round (q * 100)).natAbs % 100)) := by
      simp only [format2Chars, if_pos hneg]; rfl
    simp only [parseFloat, hstrip, hshape, List.head?_cons, List.tail_cons]
    rw [if_true]
    rw [parseUnsigned_format _ _ hb, Option.map_some']
    congr 1
    rw [round2, natAbs_div_add_mod_cast]
    have hz : ((round (q * 100)).natAbs : ℤ) = -round (q * 100) :=
      Int.ofNat_natAbs_of_nonpos (le_of_lt hneg)
    have hm : (((round (q * 100)).natAbs : ℕ) : ℚ) = -((round (q * 100) : ℤ) : ℚ) := by
      rw [← Int.cast_natCast, hz, Int.cast_neg]
    rw [hm]
    ring
  · have hshape : format2Chars q
        = natToChars ((round (q * 100)).natAbs / 100)
          ++ '.' :: pad2Chars ((round (q * 100)).natAbs % 100) := by
      simp only [format2Chars, if_neg hneg]; rfl
    obtain ⟨h0, t0, hht⟩ := List.exists_cons_of_ne_nil
      (natToChars_ne_nil ((round (q * 100)).natAbs / 100))
    have hh0 : h0.isDigit = true := by
      apply natToChars_digits
      rw [hht]; simp
    simp only [parseFloat, hstrip, hshape, hht, List.cons_append, List.head?_cons]
    rw [if_neg (by simp [ne_minus_of_isDigit hh0]),
      if_neg (by simp [ne_plus_of_isDigit hh0])]
    rw [← List.cons_append, ← hht, parseUnsigned_format _ _ hb]
    congr 1
    rw [round2, natAbs_div_add_mod_cast]
    have hz : ((round (q * 100)).natAbs : ℤ) = round (q * 100) :=
      Int.natAbs_of_nonneg (not_lt.mp hneg)
    have hm : (((round (q * 100)).natAbs : ℕ) : ℚ) = ((round (q * 100) : ℤ) : ℚ) := by
      rw [← Int.cast_natCast, hz]
    rw [hm]

theorem parseEntry_eq (line : String) :
    parseEntry line
      = match splitTabChars (stripChars line.toList) with
        | [k, a] => (parseFloat (String.mk a)).map (fun v => (String.mk k, v))
        | _ => none := rfl

theorem parseEntry_mapper_line (q : ℚ) :
    parseEntry ("1\t" ++ format2 q) = some ("1", round2 q) := by
  have htl : ("1\t" ++ format2 q).toList = '1' :: '\t' :: format2Chars q := rfl
  rw [parseEntry_eq, htl]
  rw [stripChars_keyline _ (format2Chars_ne_nil q) (format2Chars_no_space q)]
  rw [splitTabChars_keyline _ (format2Chars_no_tab q)]
  show (parseFloat (format2 q)).map (fun v => (String.mk ['1'], v)) = _
  rw [parseFloat_format2]
  rfl

theorem parseEntry_one_nat (n : ℕ) :
    parseEntry ("1\t" ++ String.mk (natToChars n)) = some ("1", (n : ℚ)) := by
  have hdig := natToChars_digits n
  have hns : ∀ c ∈ natToChars n, pyIsSpace c = false :=
    fun c hc => pyIsSpace_eq_false_of_isDigit (hdig c hc)
  have htab : ∀ c ∈ natToChars n, c ≠ '\t' :=
    fun c hc => ne_tab_of_isDigit (hdig c hc)
  have htl : ("1\t" ++ String.mk (natToChars n)).toList
      = '1' :: '\t' :: natToChars n := rfl
  rw [parseEntry_eq, htl]
  rw [stripChars_keyline _ (natToChars_ne_nil n) hns]
  rw [splitTabChars_keyline _ htab]
  show (parseFloat (String.mk (natToChars n))).map (fun v => (String.mk ['1'], v)) = _
  obtain ⟨h0, t0, hht⟩ := List.exists_cons_of_ne_nil (natToChars_ne_nil n)
  have hh0 : h0.isDigit = true := by
    apply hdig; rw [hht]; simp
  have hstrip : stripChars (String.mk (natToChars n)).toList = natToChars n :=
    stripChars_of_no_space hns
  simp only [parseFloat]
  rw [hstrip, hht]
  simp only [List.head?_cons]
  rw [if_neg (by simp [ne_minus_of_isDigit hh0]),
    if_neg (by simp [ne_plus_of_isDigit hh0])]
  rw [← hht, parseUnsigned_digits (natToChars_ne_nil n) hdig, digitsVal_natToChars]
  rfl

/-! ### Behaviour of the Aggregator loop -/

theorem runAccum_cons_some {l : String} {p : String × ℚ} (ls : List String)
    (t : ℚ) (c : ℕ) (h : parseEntry l = some p) :
    runAccum (l :: ls) t c = runAccum ls (t + p.2) (c + 1) := by
  rw [show runAccum (l :: ls) t c
      = match parseEntry l with
        | some p => runAccum ls (t + p.2) (c + 1)
        | none => none from rfl, h]

theorem runAccum_cons_none {l : String} (ls : List String)
    (t : ℚ) (c : ℕ) (h : parseEntry l = none) :
    runAccum (l :: ls) t c = none := by
  rw [show runAccum (l :: ls) t c
      = match parseEntry l with
        | some p => runAccum ls (t + p.2) (c + 1)
        | none => none from rfl, h]

theorem runAccum_valid {ls : List String} (h : ∀ l ∈ ls, (parseEntry l).isSome) :
    ∀ t c, runAccum ls t c = some (t + valSum ls, c + ls.length) := by
  induction ls with
  | nil => intro t c; simp [runAccum, valSum]
  | cons l ls ih =>
    intro t c
    obtain ⟨p, hp⟩ := Option.isSome_iff_exists.mp (h l (by simp))
    have hv : entryVal l = p.2 := by simp [entryVal, hp]
    rw [runAccum_cons_some ls t c hp]
    rw [ih (fun x hx => h x (by simp [hx])) (t + p.2) (c + 1)]
    have hsum : valSum (l :: ls) = p.2 + valSum ls := by
      simp [valSum, hv]
    rw [hsum]
    congr 1
    rw [Prod.mk.injEq]
    refine ⟨by ring, ?_⟩
    simp
    omega

theorem runAccum_none {ls : List String} {l : String} (hmem : l ∈ ls)
    (h : parseEntry l = none) : ∀ t c, runAccum ls t c = none := by
  induction ls with
  | nil => simp at hmem
  | cons x xs ih =>
    intro t c
    rcases List.mem_cons.mp hmem with rfl | hmem'
    · exact runAccum_cons_none xs t c h
    · cases hx : parseEntry x with
      | none => exact runAccum_cons_none xs t c hx
      | some p => rw [runAccum_cons_some xs t c hx]; exact ih hmem' _ _

theorem runAccum_isSome {ls : List String} {t : ℚ} {c : ℕ} {p : ℚ × ℕ}
    (h : runAccum ls t c = some p) : ∀ l ∈ ls, (parseEntry l).isSome := by
  intro l hl
  by_contra hns
  have hnone : parseEntry l = none := Option.not_isSome_iff_eq_none.mp hns
  rw [runAccum_none hl hnone t c] at h
  exact Option.noConfusion h

theorem reduce_ages_valid {ls : List String} (h : ∀ l ∈ ls, (parseEntry l).isSome)
    (hne : ls ≠ []) :
    reduce_ages ls
      = ⟨["Average Patient Age: " ++ format2 (valSum ls / (ls.length : ℚ)) ++ " years"],
         []⟩ := by
  have hrun := runAccum_valid h 0 0
  rw [reduce_ages, hrun]
  have hlen : 0 < ls.length := List.length_pos.mpr hne
  simp only [zero_add, Nat.zero_add]
  rw [if_pos hlen]

/-! ### Behaviour of the Extractor loop -/

theorem readAvroGo_cons_none {r : Record} (rs : List Record) (out : List String)
    (h : r.dob = none) : readAvroGo (r :: rs) out = readAvroGo rs out := by
  rw [show readAvroGo (r :: rs) out
      = match r.dob with
        | none => readAvroGo rs out
        | some (.num d) => readAvroGo rs (out ++ ["1\t" ++ format2 (mapperAge d)])
        | some (.other _) => ⟨out, [mapperErrorLine]⟩ from rfl, h]

theorem readAvroGo_cons_num {r : Record} {d : ℚ} (rs : List Record) (out : List String)
    (h : r.dob = some (.num d)) :
    readAvroGo (r :: rs) out = readAvroGo rs (out ++ ["1\t" ++ format2 (mapperAge d)]) := by
  rw [show readAvroGo (r :: rs) out
      = match r.dob with
        | none => readAvroGo rs out
        | some (.num d) => readAvroGo rs (out ++ ["1\t" ++ format2 (mapperAge d)])
        | some (.other _) => ⟨out, [mapperErrorLine]⟩ from rfl, h]

theorem readAvroGo_cons_other {r : Record} {s : String} (rs : List Record)
    (out : List String) (h : r.dob = some (.other s)) :
    readAvroGo (r :: rs) out = ⟨out, [mapperErrorLine]⟩ := by
  rw [show readAvroGo (r :: rs) out
      = match r.dob with
        | none => readAvroGo rs out
        | some (.num d) => readAvroGo rs (out ++ ["1\t" ++ format2 (mapperAge d)])
        | some (.other _) => ⟨out, [mapperErrorLine]⟩ from rfl, h]

theorem readAvroGo_good {rs : List Record} (h : ∀ r ∈ rs, numericOrMissing r = true) :
    ∀ out, readAvroGo rs out = ⟨out ++ rs.filterMap emitOf, []⟩ := by
  induction rs with
  | nil => intro out; simp [readAvroGo]
  | cons r rs ih =>
    intro out
    have hr := h r (by simp)
    have ih' := ih fun x hx => h x (by simp [hx])
    cases hdob : r.dob with
    | none =>
      rw [readAvroGo_cons_none rs out hdob, ih']
      have hemit : emitOf r = none := by simp [emitOf, hdob]
      simp [hemit]
    | some v =>
      cases v with
      | num d =>
        rw [readAvroGo_cons_num rs out hdob, ih']
        have hemit : emitOf r = some ("1\t" ++ format2 (mapperAge d)) := by
          simp [emitOf, hdob]
        simp [hemit]
      | other s =>
        exfalso
        rw [numericOrMissing, hdob] at hr
        exact Bool.noConfusion hr

theorem read_avro_good {rs : List Record} (h : ∀ r ∈ rs, numericOrMissing r = true) :
    read_avro_from_stdin rs = ⟨rs.filterMap emitOf, []⟩ := by
  rw [read_avro_from_stdin, readAvroGo_good h]
  rfl

theorem readAvroGo_stdout_pfx (rs : List Record) :
    ∀ out, ∃ t, (readAvroGo rs out).stdout = out ++ t ∧ t <+: rs.filterMap emitOf := by
  induction rs with
  | nil => intro out; exact ⟨[], by simp [readAvroGo], List.nil_prefix⟩
  | cons r rs ih =>
    intro out
    cases hdob : r.dob with
    | none =>
      obtain ⟨t, h1, h2⟩ := ih out
      refine ⟨t, ?_, ?_⟩
      · rw [readAvroGo_cons_none rs out hdob]
        exact h1
      · have hemit : emitOf r = none := by simp [emitOf, hdob]
        simpa [hemit] using h2
    | some v =>
      cases v with
      | num d =>
        obtain ⟨t, h1, h2⟩ := ih (out ++ ["1\t" ++ format2 (mapperAge d)])
        refine ⟨("1\t" ++ format2 (mapperAge d)) :: t, ?_, ?_⟩
        · rw [readAvroGo_cons_num rs out hdob, h1]
          simp
        · have hemit : emitOf r = some ("1\t" ++ format2 (mapperAge d)) := by
            simp [emitOf, hdob]
          rw [List.filterMap_cons_some hemit]
          exact List.cons_prefix_cons.mpr ⟨rfl, h2⟩
      | other s =>
        refine ⟨[], ?_, List.nil_prefix⟩
        rw [readAvroGo_cons_other rs out hdob]
        simp

theorem filterMap_emitOf_eq (rs : List Record) :
    rs.filterMap emitOf
      = (dobValues rs).map (fun d => "1\t" ++ format2 (mapperAge d)) := by
  induction rs with
  | nil => rfl
  | cons r rs ih =>
    cases hdob : r.dob with
    | none =>
      have h1 : emitOf r = none := by simp [emitOf, hdob]
      have h2 : dobValues (r :: rs) = dobValues rs := by
        rw [dobValues, List.filterMap_cons_none (by rw [hdob]), ← dobValues]
      rw [List.filterMap_cons_none h1, ih, h2]
    | some v =>
      cases v with
      | num d =>
        have h1 : emitOf r = some ("1\t" ++ format2 (mapperAge d)) := by
          simp [emitOf, hdob]
        have h2 : dobValues (r :: rs) = d :: dobValues rs := by
          rw [dobValues, List.filterMap_cons_some (by rw [hdob]), ← dobValues]
        rw [List.filterMap_cons_some h1, ih, h2, List.map_cons]
      | other s =>
        have h1 : emitOf r = none := by simp [emitOf, hdob]
        have h2 : dobValues (r :: rs) = dobValues rs := by
          rw [dobValues, List.filterMap_cons_none (by rw [hdob]), ← dobValues]
        rw [List.filterMap_cons_none h1, ih, h2]

theorem readAvroGo_append_good {rs₁ : List Record}
    (h : ∀ r ∈ rs₁, numericOrMissing r = true) :
    ∀ rs₂ out, readAvroGo (rs₁ ++ rs₂) out
      = readAvroGo rs₂ (out ++ rs₁.filterMap emitOf) := by
  induction rs₁ with
  | nil => intro rs₂ out; simp
  | cons r rs ih =>
    intro rs₂ out
    have hr := h r (by simp)
    have ih' := ih fun x hx => h x (by simp [hx])
    cases hdob : r.dob with
    | none =>
      rw [List.cons_append, readAvroGo_cons_none _ _ hdob, ih']
      have hemit : emitOf r = none := by simp [emitOf, hdob]
      rw [List.filterMap_cons_none hemit]
    | some v =>
      cases v with
      | num dd =>
        rw [List.cons_append, readAvroGo_cons_num _ _ hdob, ih']
        have hemit : emitOf r = some ("1\t" ++ format2 (mapperAge dd)) := by
          simp [emitOf, hdob]
        rw [List.filterMap_cons_some hemit]
        congr 1
        simp
      | other s =>
        exfalso
        rw [numericOrMissing, hdob] at hr
        exact Bool.noConfusion hr

theorem pySplitTab_mapper_line (q : ℚ) :
    pySplitTab ("1\t" ++ format2 q) = ["1", format2 q] := by
  rw [pySplitTab]
  rw [show ("1\t" ++ format2 q).toList = '1' :: '\t' :: format2Chars q from rfl]
  rw [splitTabChars_keyline _ (format2Chars_no_tab q)]
  rfl

/-! ### Concrete evaluations used by witnesses -/

theorem mapperAge_eval_2000 : mapperAge 959385600000 = 36524 / 1461 := by
  unfold mapperAge REFERENCE_DATE
  norm_num

theorem round_eval_2000 : round (((36524 : ℚ) / 1461) * 100) = 2500 := by
  rw [round_eq]
  norm_num

theorem format2_eval_2000 : format2 (mapperAge 959385600000) = "25.00" := by
  rw [mapperAge_eval_2000, format2]
  rw [show format2Chars ((36524 : ℚ) / 1461)
      = (if round (((36524 : ℚ) / 1461) * 100) < 0 then ['-'] else [])
        ++ natToChars ((round (((36524 : ℚ) / 1461) * 100)).natAbs / 100)
        ++ '.' :: pad2Chars ((round (((36524 : ℚ) / 1461) * 100)).natAbs % 100)
      from rfl]
  rw [round_eval_2000]
  rfl

theorem mapper_line_eval_2000 :
    "1\t" ++ format2 (mapperAge 959385600000) = "1\t25.00" := by
  rw [format2_eval_2000]
  rfl

theorem stdout_eval_2000 :
    (read_avro_from_stdin [⟨some (.num 959385600000)⟩]).stdout = ["1\t25.00"] := by
  rw [read_avro_good (by decide)]
  show List.filterMap emitOf [(⟨some (.num 959385600000)⟩ : Record)] = _
  rw [show List.filterMap emitOf [(⟨some (.num 959385600000)⟩ : Record)]
      = ["1\t" ++ format2 (mapperAge 959385600000)] from rfl]
  rw [mapper_line_eval_2000]

theorem round_eval_25 : round ((25 : ℚ) * 100) = 2500 := by
  rw [round_eq]
  norm_num

theorem format2_eval_25 : format2 (25 : ℚ) = "25.00" := by
  rw [format2]
  rw [show format2Chars (25 : ℚ)
      = (if round ((25 : ℚ) * 100) < 0 then ['-'] else [])
        ++ natToChars ((round ((25 : ℚ) * 100)).natAbs / 100)
        ++ '.' :: pad2Chars ((round ((25 : ℚ) * 100)).natAbs % 100)
      from rfl]
  rw [round_eval_25]
  rfl

/-! ### The claims -/

/-- C1: for every intermediate stream of `n > 0` well-formed tab-separated
entries, the Aggregator's running state follows the update rule
`sum += value; count += 1` for each entry (so it ends at the value sum and
the entry count), and at end-of-stream it emits exactly one result line,
the mean `sum / count` formatted to two decimal places inside the fixed
label `Average Patient Age: <mean> years`. -/
theorem claim_C1 (ls : List String) (h : ∀ l ∈ ls, (parseEntry l).isSome)
    (hne : ls ≠ []) :
    runAccum ls 0 0 = some (valSum ls, ls.length)
      ∧ reduce_ages ls
        = ⟨["Average Patient Age: " ++ format2 (valSum ls / (ls.length : ℚ))
              ++ " years"], []⟩ := by
  constructor
  · simpa using runAccum_valid h 0 0
  · exact reduce_ages_valid h hne

/-- Witness for C1 at the concrete stream `["1\t30", "1\t20"]`: the state
reaches `(50, 2)` and the emitted mean line is `Average Patient Age: 25.00
years`. -/
theorem claim_C1_witness :
    runAccum ["1\t30", "1\t20"] 0 0 = some (valSum ["1\t30", "1\t20"], 2)
      ∧ reduce_ages ["1\t30", "1\t20"]
          = ⟨["Average Patient Age: 25.00 years"], []⟩ := by
  have h := claim_C1 ["1\t30", "1\t20"] (by decide) (by decide)
  refine ⟨h.1, ?_⟩
  rw [h.2]
  have h30 : parseEntry "1\t30" = some ("1", (30 : ℚ)) := parseEntry_one_nat 30
  have h20 : parseEntry "1\t20" = some ("1", (20 : ℚ)) := parseEntry_one_nat 20
  have hval : valSum ["1\t30", "1\t20"] = 50 := by
    simp [valSum, entryVal, h30, h20]
    norm_num
  have hm : valSum ["1\t30", "1\t20"] / ((["1\t30", "1\t20"].length : ℕ) : ℚ) = 25 := by
    rw [hval]
    norm_num
  rw [hm, format2_eval_25]
  rfl

/-- C2 counterexample: on the empty stream the code prints nothing at all on
the primary output channel; the `No valid ages found` message goes to the
diagnostic channel (stderr), contradicting the claim that it is emitted on
the primary output channel. -/
theorem claim_C2_counterexample :
    (reduce_ages []).stdout = [] ∧ (reduce_ages []).stderr = ["No valid ages found"] :=
  ⟨rfl, rfl⟩

/-- C2 (amended): for the empty input stream the Aggregator emits the
distinct `No valid ages found` message as a single line on the secondary
(diagnostic) channel, nothing on the primary channel, and never performs a
division (the mean branch is not taken). -/
theorem claim_C2_amended : reduce_ages [] = ⟨[], ["No valid ages found"]⟩ := rfl

/-- C3: if any entry of the intermediate stream is structurally malformed
(fails to split into exactly two tab-separated fields with a parseable
number in the second — i.e. `parseEntry` returns `none`), the Aggregator's
pass is fatal: no mean result appears on the primary output channel, even
for well-formed entries seen before the malformed one, and the failure is
reported as an error on the diagnostic channel rather than skipped. -/
theorem claim_C3 (ls : List String) (l : String) (hmem : l ∈ ls)
    (h : parseEntry l = none) :
    (reduce_ages ls).stdout = [] ∧ (reduce_ages ls).stderr = [reducerErrorLine] := by
  rw [reduce_ages, runAccum_none hmem h 0 0]
  exact ⟨rfl, rfl⟩

/-- Witness for C3 at the stream `["1\t30", "oops"]`: the valid first entry
notwithstanding, stdout is empty and stderr carries the error line. -/
theorem claim_C3_witness :
    (reduce_ages ["1\t30", "oops"]).stdout = []
      ∧ (reduce_ages ["1\t30", "oops"]).stderr = [reducerErrorLine] :=
  claim_C3 ["1\t30", "oops"] "oops" (by decide) rfl

/-- C4: for every record whose `dob` field is an epoch-milliseconds
timestamp `d` (preceded by any records the mapper handles without raising),
the Extractor derives the emitted age by exact day-based division with
365.25 days per year: the emitted line is the two-decimal rendering of
`(REFERENCE_DATE − d) / (1000·60·60·24·365.25)`. -/
theorem claim_C4 (rs₁ rs₂ : List Record) (d : ℚ)
    (h : ∀ r ∈ rs₁, numericOrMissing r = true) :
    ∃ rest, (read_avro_from_stdin (rs₁ ++ (⟨some (.num d)⟩ : Record) :: rs₂)).stdout
      = rs₁.filterMap emitOf
        ++ ("1\t" ++ format2 ((REFERENCE_DATE - d) / (1000 * 60 * 60 * 24 * 365.25)))
          :: rest := by
  rw [read_avro_from_stdin, readAvroGo_append_good h, List.nil_append,
    readAvroGo_cons_num rs₂ (rs₁.filterMap emitOf) rfl]
  obtain ⟨t, h1, h2⟩ :=
    readAvroGo_stdout_pfx rs₂ (rs₁.filterMap emitOf ++ ["1\t" ++ format2 (mapperAge d)])
  refine ⟨t, ?_⟩
  rw [h1]
  simp [mapperAge]

/-- Witness for C4 at the single record with `dob` the epoch milliseconds
of 2000-05-27T00:00:00Z. -/
theorem claim_C4_witness :
    ∃ rest, (read_avro_from_stdin
        ([] ++ (⟨some (.num 959385600000)⟩ : Record) :: [])).stdout
      = ([] : List Record).filterMap emitOf
        ++ ("1\t" ++ format2 ((REFERENCE_DATE - 959385600000)
              / (1000 * 60 * 60 * 24 * 365.25))) :: rest :=
  claim_C4 [] [] 959385600000 (by decide)

/-- C5: for every finite record stream, the Extractor emits zero or one
line per input record, preserving arrival order (its stdout is a prefix of
the per-record emissions, cut short only by an aborting record), and every
emitted line consists of two tab-separated fields whose first field is
exactly `1` and whose second field is the formatted age value. -/
theorem claim_C5 (rs : List Record) :
    (read_avro_from_stdin rs).stdout <+: rs.filterMap emitOf
      ∧ ∀ line ∈ (read_avro_from_stdin rs).stdout,
          ∃ d, line = "1\t" ++ format2 (mapperAge d)
            ∧ pySplitTab line = ["1", format2 (mapperAge d)] := by
  obtain ⟨t, h1, h2⟩ := readAvroGo_stdout_pfx rs []
  have hs : (read_avro_from_stdin rs).stdout = t := by
    rw [read_avro_from_stdin, h1, List.nil_append]
  constructor
  · rw [hs]
    exact h2
  · intro line hline
    rw [hs] at hline
    have hmem : line ∈ rs.filterMap emitOf := h2.sublist.subset hline
    obtain ⟨r, _, hemit⟩ := List.mem_filterMap.mp hmem
    cases hdob : r.dob with
    | none => rw [emitOf, hdob] at hemit; exact Option.noConfusion hemit
    | some v =>
      cases v with
      | num d =>
        rw [emitOf, hdob] at hemit
        have hline_eq : line = "1\t" ++ format2 (mapperAge d) :=
          (Option.some_inj.mp hemit).symm
        exact ⟨d, hline_eq, by rw [hline_eq, pySplitTab_mapper_line]⟩
      | other s => rw [emitOf, hdob] at hemit; exact Option.noConfusion hemit

/-- Witness for C5: the line emitted for the 2000-05-27 record is
`1<tab>25.00`, whose tab-split fields are `1` and the formatted age. -/
theorem claim_C5_witness :
    ∃ d, "1\t25.00" = "1\t" ++ format2 (mapperAge d)
      ∧ pySplitTab "1\t25.00" = ["1", format2 (mapperAge d)] :=
  (claim_C5 [⟨some (.num 959385600000)⟩]).2 "1\t25.00"
    (by rw [stdout_eval_2000]; simp)

/-- C6 counterexample: a record whose `dob` field holds a non-numeric value
aborts the Extractor's pass (error on the diagnostic channel) instead of
being skipped: the numeric record that follows it is never processed, even
though on its own it would produce an emission. -/
theorem claim_C6_counterexample :
    (read_avro_from_stdin
        [⟨some (.other "1990-05-27")⟩, ⟨some (.num 959385600000)⟩]).stdout = []
      ∧ (read_avro_from_stdin
          [⟨some (.other "1990-05-27")⟩, ⟨some (.num 959385600000)⟩]).stderr
            = [mapperErrorLine]
      ∧ (read_avro_from_stdin [⟨some (.num 959385600000)⟩]).stdout = ["1\t25.00"] :=
  ⟨rfl, rfl, stdout_eval_2000⟩

/-- C6 (amended): a record missing the `dob` field is silently skipped and
processing continues with the subsequent records; but a record whose `dob`
holds a non-numeric value is fatal for the pass: the emissions made so far
stand, an error line goes to the diagnostic channel, and no subsequent
record is processed. -/
theorem claim_C6_amended (rs₁ rs₂ : List Record) (r : Record) (s : String)
    (h : ∀ x ∈ rs₁, numericOrMissing x = true) :
    (r.dob = none →
        read_avro_from_stdin (rs₁ ++ r :: rs₂) = read_avro_from_stdin (rs₁ ++ rs₂))
      ∧ (r.dob = some (.other s) →
          (read_avro_from_stdin (rs₁ ++ r :: rs₂)).stdout = rs₁.filterMap emitOf
            ∧ (read_avro_from_stdin (rs₁ ++ r :: rs₂)).stderr = [mapperErrorLine]) := by
  constructor
  · intro hdob
    rw [read_avro_from_stdin, read_avro_from_stdin, readAvroGo_append_good h,
      readAvroGo_append_good h, readAvroGo_cons_none _ _ hdob]
  · intro hdob
    rw [read_avro_from_stdin, readAvroGo_append_good h, List.nil_append,
      readAvroGo_cons_other _ _ hdob]
    exact ⟨rfl, rfl⟩

/-- Witness for C6 (amended): after one numeric record, a missing-`dob`
record is dropped with processing intact, while a string-`dob` record ends
the pass keeping the earlier emission. -/
theorem claim_C6_witness :
    read_avro_from_stdin [⟨some (.num 959385600000)⟩, ⟨none⟩]
        = read_avro_from_stdin [⟨some (.num 959385600000)⟩]
      ∧ (read_avro_from_stdin
            [⟨some (.num 959385600000)⟩, ⟨some (.other "x")⟩]).stdout
          = [(⟨some (.num 959385600000)⟩ : Record)].filterMap emitOf := by
  have h1 := claim_C6_amended [⟨some (.num 959385600000)⟩] [] ⟨none⟩ "x" (by decide)
  have h2 := claim_C6_amended [⟨some (.num 959385600000)⟩] []
    ⟨some (.other "x")⟩ "x" (by decide)
  exact ⟨h1.1 rfl, (h2.2 rfl).1⟩

/-- C7: for any splitting of a valid stream into two sub-streams (any
interleaving: the concatenation of the parts is a permutation of the
stream), `merge` of the two independently computed partial aggregates
equals the aggregate of the full stream, and `merge` is associative and
commutative — exactly over `ℚ`, hence within floating-point tolerance. -/
theorem claim_C7 (ls ls₁ ls₂ : List String) (p q : ℚ × ℕ)
    (hperm : (ls₁ ++ ls₂).Perm ls)
    (h1 : runAccum ls₁ 0 0 = some p) (h2 : runAccum ls₂ 0 0 = some q) :
    runAccum ls 0 0 = some (merge p q)
      ∧ (∀ a b c : ℚ × ℕ, merge (merge a b) c = merge a (merge b c))
      ∧ (∀ a b : ℚ × ℕ, merge a b = merge b a) := by
  refine ⟨?_, ?_, ?_⟩
  · have hv1 : ∀ l ∈ ls₁, (parseEntry l).isSome := runAccum_isSome h1
    have hv2 : ∀ l ∈ ls₂, (parseEntry l).isSome := runAccum_isSome h2
    have hv : ∀ l ∈ ls, (parseEntry l).isSome := by
      intro l hl
      rcases List.mem_append.mp (hperm.mem_iff.mpr hl) with hc | hc
      · exact hv1 _ hc
      · exact hv2 _ hc
    have hp : p = (valSum ls₁, ls₁.length) := by
      have hr := runAccum_valid hv1 0 0
      rw [h1] at hr
      simpa using Option.some_inj.mp hr
    have hq : q = (valSum ls₂, ls₂.length) := by
      have hr := runAccum_valid hv2 0 0
      rw [h2] at hr
      simpa using Option.some_inj.mp hr
    have hsum : valSum ls = valSum ls₁ + valSum ls₂ := by
      have hmap := ((hperm.map entryVal).sum_eq).symm
      rw [valSum, hmap, List.map_append, List.sum_append]
      rfl
    have hlen : ls.length = ls₁.length + ls₂.length := by
      have := hperm.length_eq
      simpa using this.symm
    rw [runAccum_valid hv 0 0, hp, hq]
    rw [merge]
    congr 1
    rw [Prod.mk.injEq]
    exact ⟨by rw [zero_add, hsum], by rw [Nat.zero_add, hlen]⟩
  · intro a b c
    rw [merge, merge, merge, merge, Prod.mk.injEq]
    exact ⟨add_assoc _ _ _, add_assoc _ _ _⟩
  · intro a b
    rw [merge, merge, Prod.mk.injEq]
    exact ⟨add_comm _ _, add_comm _ _⟩

/-- Witness for C7: splitting `["1\t30", "1\t20"]` into its two entries in
swapped order, the merged partial aggregates recover the full aggregate. -/
theorem claim_C7_witness :
    runAccum ["1\t30", "1\t20"] 0 0 = some (merge (20, 1) (30, 1))
      ∧ (∀ a b c : ℚ × ℕ, merge (merge a b) c = merge a (merge b c))
      ∧ (∀ a b : ℚ × ℕ, merge a b = merge b a) := by
  have h30 : parseEntry "1\t30" = some ("1", (30 : ℚ)) := parseEntry_one_nat 30
  have h20 : parseEntry "1\t20" = some ("1", (20 : ℚ)) := parseEntry_one_nat 20
  have h1 : runAccum ["1\t20"] 0 0 = some ((20 : ℚ), 1) := by
    rw [runAccum_cons_some [] 0 0 h20]
    show some (0 + 20, 0 + 1) = _
    norm_num
  have h2 : runAccum ["1\t30"] 0 0 = some ((30 : ℚ), 1) := by
    rw [runAccum_cons_some [] 0 0 h30]
    show some (0 + 30, 0 + 1) = _
    norm_num
  exact claim_C7 ["1\t30", "1\t20"] ["1\t20"] ["1\t30"] (20, 1) (30, 1)
    (by decide) h1 h2

/-- C8: for the single record whose `dob` is the epoch milliseconds of
2000-05-27T00:00:00Z (959385600000), against the reference instant
2025-05-27T00:00:00Z, the Extractor emits the line `1<tab>25.00`, and the
derived age is within 0.01 of 25. -/
theorem claim_C8 :
    read_avro_from_stdin [⟨some (.num 959385600000)⟩] = ⟨["1\t25.00"], []⟩
      ∧ |mapperAge 959385600000 - 25| < 1 / 100 := by
  constructor
  · rw [read_avro_good (by decide)]
    rw [show List.filterMap emitOf [(⟨some (.num 959385600000)⟩ : Record)]
        = ["1\t" ++ format2 (mapperAge 959385600000)] from rfl]
    rw [mapper_line_eval_2000]
  · rw [mapperAge_eval_2000, abs_sub_lt_iff]
    norm_num

/-- Congruence of the accumulation loop in the value fields: on two streams
whose entries carry the same parsed values position by position (the first
all well-formed), the loop computes the same result from any start state. -/
theorem runAccum_congr {ls₁ ls₂ : List String}
    (hsome : ∀ l ∈ ls₁, (parseEntry l).isSome)
    (hvals : ls₁.map (fun l => (parseEntry l).map Prod.snd)
        = ls₂.map (fun l => (parseEntry l).map Prod.snd)) :
    ∀ t c, runAccum ls₁ t c = runAccum ls₂ t c := by
  induction ls₁ generalizing ls₂ with
  | nil =>
    cases ls₂ with
    | nil => intro t c; rfl
    | cons => simp at hvals
  | cons l₁ l₁s ih =>
    cases ls₂ with
    | nil => simp at hvals
    | cons l₂ l₂s =>
      intro t c
      simp only [List.map_cons, List.cons.injEq] at hvals
      obtain ⟨p₁, hp₁⟩ := Option.isSome_iff_exists.mp (hsome l₁ (by simp))
      have hv2 : (parseEntry l₂).map Prod.snd = some p₁.2 := by
        rw [← hvals.1, hp₁]
        rfl
      obtain ⟨p₂, hp₂⟩ : ∃ p₂, parseEntry l₂ = some p₂ := by
        cases hl2 : parseEntry l₂ with
        | none => rw [hl2] at hv2; exact absurd hv2 (by simp)
        | some pp => exact ⟨pp, rfl⟩
      have hsnd : p₂.2 = p₁.2 := by
        rw [hp₂] at hv2
        simpa using hv2
      rw [runAccum_cons_some _ _ _ hp₁, runAccum_cons_some _ _ _ hp₂, hsnd]
      exact ih (fun x hx => hsome x (by simp [hx])) hvals.2 _ _

/-- C9: the Aggregator's output depends only on the value field of each
intermediate line: two well-formed streams that agree position by position
on the parsed value field (keys arbitrary) yield identical output. -/
theorem claim_C9 (ls₁ ls₂ : List String)
    (hsome : ∀ l ∈ ls₁, (parseEntry l).isSome)
    (hvals : ls₁.map (fun l => (parseEntry l).map Prod.snd)
        = ls₂.map (fun l => (parseEntry l).map Prod.snd)) :
    reduce_ages ls₁ = reduce_ages ls₂ := by
  rw [reduce_ages, reduce_ages, runAccum_congr hsome hvals 0 0]

/-- Witness for C9: replacing the key `1` by `key` leaves the Aggregator's
output unchanged. -/
theorem claim_C9_witness : reduce_ages ["1\t30"] = reduce_ages ["key\t30"] :=
  claim_C9 ["1\t30"] ["key\t30"] (by decide) rfl

/-- C10: the Extractor formats each age to two decimals before emission, so
what the Aggregator accumulates from the Extractor's output is, per record,
the age rounded at two decimals (`round2`), not the exact derived age: on
any stream of records it handles without raising, the loop ends at the
rounded ages' sum and their count. -/
theorem claim_C10 (rs : List Record) (h : ∀ r ∈ rs, numericOrMissing r = true) :
    runAccum ((read_avro_from_stdin rs).stdout) 0 0
      = some (((dobValues rs).map (fun d => round2 (mapperAge d))).sum,
          (dobValues rs).length) := by
  rw [read_avro_good h]
  show runAccum (rs.filterMap emitOf) 0 0 = _
  rw [filterMap_emitOf_eq]
  have hall : ∀ l ∈ (dobValues rs).map (fun d => "1\t" ++ format2 (mapperAge d)),
      (parseEntry l).isSome := by
    intro l hl
    obtain ⟨d, _, rfl⟩ := List.mem_map.mp hl
    rw [parseEntry_mapper_line]
    rfl
  rw [runAccum_valid hall 0 0]
  have hmap : ((dobValues rs).map (fun d => "1\t" ++ format2 (mapperAge d))).map entryVal
      = (dobValues rs).map (fun d => round2 (mapperAge d)) := by
    rw [List.map_map]
    apply List.map_congr_left
    intro d _
    show entryVal ("1\t" ++ format2 (mapperAge d)) = round2 (mapperAge d)
    rw [entryVal, parseEntry_mapper_line]
    rfl
  congr 1
  rw [Prod.mk.injEq]
  constructor
  · rw [zero_add, valSum, hmap]
  · rw [Nat.zero_add, List.length_map]

/-- Witness for C10 at the record with `dob = 0`: the accumulated value is
the rounded age, and here rounding is strict — the exact age
`1748304000000 / 31557600000 = 26980/487` is not a multiple of `1/100`. -/
theorem claim_C10_witness :
    runAccum ((read_avro_from_stdin [⟨some (.num 0)⟩]).stdout) 0 0
        = some ((([(0 : ℚ)].map (fun d => round2 (mapperAge d))).sum, 1))
      ∧ round2 (mapperAge 0) ≠ mapperAge 0 := by
  constructor
  · exact claim_C10 [⟨some (.num 0)⟩] (by decide)
  · rw [show mapperAge 0 = 26980 / 487 from by unfold mapperAge REFERENCE_DATE; norm_num]
    rw [round2]
    rw [show round (((26980 : ℚ) / 487) * 100) = 5540 from by rw [round_eq]; norm_num]
    norm_num

end Mimic
